import Mathlib

/-!
Verification of the anki-mcp tool-generation and query/result pipeline.

The definitions below are a shallow embedding of the TypeScript sources:
`helpers.ts` (HTML cleaning, compact projection, pagination, the
scheduling-aware aggregation loop), `anki-client.ts` (`invoke`),
`tools.ts` (`buildPresetTool` parameter schemas, `buildPracticeTools`
create handler).  JavaScript numbers are modelled as `Int`, JS objects
with optional keys as `Option`-valued fields, record key sets as ordered
key lists, and the AnkiConnect backend as explicit oracle functions whose
calls are recorded in a trace.  A few components of the preset pipeline
(`buildQuery`, the sorting variant of `searchCardsWithScheduling`, the
generic field projector) exist in the repository only through their
callers, tests and documentation; those are modelled from the spec and
marked as such in their doc comments.
-/

namespace AnkiMcp

/-- Whitespace test used by the JS `String.prototype.trim` model
(ASCII whitespace; the sources only ever trim ASCII text). -/
def isJsWs (c : Char) : Bool :=
  c == ' ' || c == '\t' || c == '\n' || c == '\r' || c == '\x0b' || c == '\x0c'

/-- List-level model of JS `trim`: drop whitespace from both ends. -/
def jsTrimL (l : List Char) : List Char :=
  ((l.dropWhile isJsWs).reverse.dropWhile isJsWs).reverse

/-- String-level model of JS `String.prototype.trim`. -/
def jsTrimStr (s : String) : String :=
  ⟨jsTrimL s.data⟩

/-- Scan for the next closing angle bracket; on success return the rest of
the input after it.  Models the `[^>]*>` part of the tag-stripping regex. -/
def dropTag : List Char → Option (List Char)
  | [] => none
  | c :: cs => if c = '>' then some cs else dropTag cs

/-- Remove every `<...>` tag, as the regex `/<[^>]*>/g` does: at each `<`
either a closing `>` exists (the whole tag is dropped) or the `<` is kept
literally.  Fuel-driven so that the kernel can evaluate it; the initial
fuel is the input length, which is always sufficient. -/
def stripTagsL : Nat → List Char → List Char
  | _, [] => []
  | 0, l => l
  | fuel + 1, c :: cs =>
    if c = '<' then
      match dropTag cs with
      | some rest => stripTagsL fuel rest
      | none => c :: stripTagsL fuel cs
    else c :: stripTagsL fuel cs

/-- Replace every literal `&nbsp;` entity by a space, as `/&nbsp;/g` does. -/
def replaceNbspL : Nat → List Char → List Char
  | _, [] => []
  | 0, l => l
  | fuel + 1, l =>
    match l with
    | '&' :: 'n' :: 'b' :: 's' :: 'p' :: ';' :: rest => ' ' :: replaceNbspL fuel rest
    | c :: cs => c :: replaceNbspL fuel cs
    | [] => []

/-- Strip all HTML tags from a string: model of `stripHtml` in
`helpers.ts` (`replace(/<[^>]*>/g, "").replace(/&nbsp;/g, " ").trim()`). -/
def stripHtml (s : String) : String :=
  let l1 := stripTagsL s.data.length s.data
  ⟨jsTrimL (replaceNbspL l1.length l1)⟩

/-- Scan for the closing `-->` of an HTML comment.  The `.` of the
non-greedy regex `/<!--.*?-->/g` does not match a newline, so the scan
fails when a newline appears before the first `-->`. -/
def dropComment : List Char → Option (List Char)
  | '-' :: '-' :: '>' :: rest => some rest
  | c :: cs => if c = '\n' then none else dropComment cs
  | [] => none

/-- Remove every single-line HTML comment, as `/<!--.*?-->/g` does. -/
def stripCommentsL : Nat → List Char → List Char
  | _, [] => []
  | 0, l => l
  | fuel + 1, l =>
    match l with
    | '<' :: '!' :: '-' :: '-' :: rest =>
      match dropComment rest with
      | some r => stripCommentsL fuel r
      | none => '<' :: stripCommentsL fuel ('!' :: '-' :: '-' :: rest)
    | c :: cs => c :: stripCommentsL fuel cs
    | [] => []

/-- Strip HTML comment annotations: model of `stripComments` in
`helpers.ts` (`replace(/<!--.*?-->/g, "").trim()`). -/
def stripComments (s : String) : String :=
  ⟨jsTrimL (stripCommentsL s.data.length s.data)⟩

/-- One entry of a note or card `fields` record, as returned by
AnkiConnect: a value string and a display order. -/
structure FieldEntry where
  value : String
  order : Int
  deriving DecidableEq, Repr

/-- Model of the `NoteInfo` interface of `anki-client.ts`.  The
`fields` record is an association list keyed by field name. -/
structure NoteInfo where
  noteId : Int
  modelName : String
  tags : List String
  fields : List (String × FieldEntry)
  mod : Int
  cards : List Int
  deriving DecidableEq, Repr

/-- Model of the `CardInfo` interface of `anki-client.ts`. -/
structure CardInfo where
  cardId : Int
  note : Int
  deckName : String
  modelName : String
  interval : Int
  ease : Int
  lapses : Int
  reps : Int
  due : Int
  fields : List (String × FieldEntry)
  deriving DecidableEq, Repr

/-- Lookup `fields[name]?.value ?? ""` on a note-style field record. -/
def fieldValue (fields : List (String × FieldEntry)) (name : String) : String :=
  ((fields.lookup name).map FieldEntry.value).getD ""

/-- The three note-type field names used by the compact projection
(`config.noteType.fields` in `config.ts`). -/
structure FieldsCfg where
  hanzi : String
  pinyin : String
  english : String
  deriving DecidableEq, Repr

/-- Model of the `IncludeFields` toggles of `helpers.ts`. -/
structure IncludeFields where
  noteId : Bool
  pinyin : Bool
  english : Bool
  tags : Bool
  deriving DecidableEq, Repr

/-- Evaluate an optional-chaining access `include?.flag` as a truthy test. -/
def incFlag (inc : Option IncludeFields) (f : IncludeFields → Bool) : Bool :=
  (inc.map f).getD false

/-- Model of the `CompactNote` shape of `helpers.ts`; `none` plays the
role of an absent JSON key. -/
structure CompactNote where
  noteId : Option Int
  hanzi : String
  pinyin : Option String
  english : Option String
  tags : Option (List String)
  deriving DecidableEq, Repr

/-- Convert a raw `NoteInfo` to a compact representation with HTML
stripped: model of `toCompact` in `helpers.ts`. -/
def toCompact (cfg : FieldsCfg) (n : NoteInfo) (inc : Option IncludeFields) : CompactNote :=
  { hanzi := stripHtml (fieldValue n.fields cfg.hanzi)
    noteId := if incFlag inc IncludeFields.noteId then some n.noteId else none
    pinyin :=
      if incFlag inc IncludeFields.pinyin then
        some (stripComments (stripHtml (fieldValue n.fields cfg.pinyin)))
      else none
    english :=
      if incFlag inc IncludeFields.english then
        some (stripHtml (fieldValue n.fields cfg.english))
      else none
    tags := if incFlag inc IncludeFields.tags then some n.tags else none }

/-- Field-name configuration used by the concrete examples. -/
def fcfgEx : FieldsCfg :=
  { hanzi := "Hanzi", pinyin := "Pinyin", english := "English" }

/-- Concrete note whose field values carry HTML markup, a non-breaking
space entity and a comment annotation. -/
def noteEx : NoteInfo :=
  { noteId := 7
    modelName := "Chinese (Basic)"
    tags := ["hsk1"]
    fields :=
      [("Hanzi", { value := "<b>bold</b>&nbsp;text", order := 0 }),
       ("Pinyin", { value := "ni3 hao3 <!--third tone-->", order := 1 })]
    mod := 0
    cards := [1] }

/-- Model of `Array.prototype.slice(s, e)` on a list, with the JS
clamping rules for negative and out-of-range indices. -/
def jsSlice (l : List α) (s e : Int) : List α :=
  let n : Int := l.length
  let s1 : Int := if s < 0 then max (n + s) 0 else min s n
  let e1 : Int := if e < 0 then max (n + e) 0 else min e n
  (l.take e1.toNat).drop s1.toNat

/-- Effective limit: `limit ?? config.defaults.maxResults`. -/
def effLimit (limit : Option Int) (maxResults : Int) : Int :=
  limit.getD maxResults

/-- Effective page: `Math.max(1, page ?? 1)`. -/
def effPage (page : Option Int) : Int :=
  max 1 (page.getD 1)

/-- Start offset of the requested page: `(effectivePage - 1) * effectiveLimit`. -/
def startOffset (limit page : Option Int) (maxResults : Int) : Int :=
  (effPage page - 1) * effLimit limit maxResults

/-- The four `SortOrder` values of `helpers.ts`. -/
inductive SortOrder where
  | added_asc | added_desc | modified_asc | modified_desc
  deriving DecidableEq, Repr

/-- Sort the candidate note-id list for the added-date sort modes, before
pagination; other modes leave the list untouched (`helpers.ts` lines
77-82).  The JS numeric-comparator sort is modelled by a stable
insertion sort, which agrees with it on integer keys. -/
def addedSorted (sort : Option SortOrder) (ids : List Int) : List Int :=
  match sort with
  | some .added_asc => List.insertionSort (fun a b => a ≤ b) ids
  | some .added_desc => List.insertionSort (fun a b => b ≤ a) ids
  | _ => ids

/-- Index of `id` in the paged id list under JS `Map` semantics (the
last insertion for a key wins), defaulting to 0: models
`order.get(a.noteId) ?? 0`. -/
def pagedIndex (paged : List Int) (id : Int) : Nat :=
  ((paged.enum.foldl (fun acc p => if p.2 = id then some p.1 else acc) none).getD 0)

/-- Post-fetch reordering of the fetched note records (`helpers.ts`
lines 92-101): modified sorts order by the `mod` timestamp, added sorts
restore the pre-sorted id order, any other mode keeps fetch order. -/
def resortInfos (sort : Option SortOrder) (paged : List Int) (infos : List NoteInfo) :
    List NoteInfo :=
  match sort with
  | some .modified_asc => List.insertionSort (fun a b => a.mod ≤ b.mod) infos
  | some .modified_desc => List.insertionSort (fun a b => b.mod ≤ a.mod) infos
  | some .added_asc =>
    List.insertionSort (fun a b => pagedIndex paged a.noteId ≤ pagedIndex paged b.noteId) infos
  | some .added_desc =>
    List.insertionSort (fun a b => pagedIndex paged a.noteId ≤ pagedIndex paged b.noteId) infos
  | none => infos

/-- Result of the `searchNotes` pipeline, together with the trace of
`notesInfo` backend calls it performed. -/
structure SearchNotesOut where
  total : Int
  hasMore : Bool
  notes : List CompactNote
  notesInfoCalls : List (List Int)
  deriving DecidableEq, Repr

/-- Model of `searchNotes` in `helpers.ts`: the backend id search is the
`ids` argument, and `notesInfoFn` is the `notesInfo` bulk-fetch oracle
whose invocations are recorded in `notesInfoCalls`. -/
def searchNotes (cfg : FieldsCfg) (ids : List Int) (notesInfoFn : List Int → List NoteInfo)
    (limit : Option Int) (inc : Option IncludeFields) (sort : Option SortOrder)
    (page : Option Int) (maxResults : Int) : SearchNotesOut :=
  let total : Int := ids.length
  let sorted := addedSorted sort ids
  let eLimit := effLimit limit maxResults
  let start := startOffset limit page maxResults
  let paged := if 0 < eLimit then jsSlice sorted start (start + eLimit) else sorted
  if paged.isEmpty then
    { total := total, hasMore := false, notes := [], notesInfoCalls := [] }
  else
    let infos := notesInfoFn paged
    let infos2 := resortInfos sort paged infos
    { total := total
      hasMore := decide (start + (paged.length : Int) < total)
      notes := infos2.map (fun n => toCompact cfg n inc)
      notesInfoCalls := [paged] }

/-- Card-level compact result enriched with scheduling data: model of
`CardWithScheduling` in `helpers.ts`. -/
structure CardWithScheduling where
  noteId : Option Int
  hanzi : String
  pinyin : Option String
  english : Option String
  interval : Int
  ease : Int
  lapses : Int
  reps : Int
  deriving DecidableEq, Repr

/-- Projection of one fetched card into a `CardWithScheduling`, exactly
as the loop body of `searchCardsWithScheduling` builds it. -/
def projectCardOld (cfg : FieldsCfg) (inc : Option IncludeFields) (c : CardInfo) :
    CardWithScheduling :=
  { hanzi := stripHtml (fieldValue c.fields cfg.hanzi)
    interval := c.interval
    ease := c.ease
    lapses := c.lapses
    reps := c.reps
    noteId := if incFlag inc IncludeFields.noteId then some c.note else none
    pinyin :=
      if incFlag inc IncludeFields.pinyin then
        some (stripComments (stripHtml (fieldValue c.fields cfg.pinyin)))
      else none
    english :=
      if incFlag inc IncludeFields.english then
        some (stripHtml (fieldValue c.fields cfg.english))
      else none }

/-- The deduplication loop of `searchCardsWithScheduling` on raw cards:
walk the fetched records, keep a seen-set of note ids, first card per
note wins. -/
def dedupRaw (seen : List Int) : List CardInfo → List CardInfo
  | [] => []
  | c :: cs =>
    if c.note ∈ seen then dedupRaw seen cs
    else c :: dedupRaw (c.note :: seen) cs

/-- The deduplication loop of `searchCardsWithScheduling` as written in
the source: the surviving card is projected in place. -/
def dedupLoop (cfg : FieldsCfg) (inc : Option IncludeFields) (seen : List Int) :
    List CardInfo → List CardWithScheduling
  | [] => []
  | c :: cs =>
    if c.note ∈ seen then dedupLoop cfg inc seen cs
    else projectCardOld cfg inc c :: dedupLoop cfg inc (c.note :: seen) cs

/-- The deduplicated result set (`allResults` in the source), built from
all fetched card records with an initially empty seen-set. -/
def scwsDedup (cfg : FieldsCfg) (inc : Option IncludeFields) (infos : List CardInfo) :
    List CardWithScheduling :=
  dedupLoop cfg inc [] infos

/-- First-occurrence list on raw cards with an initially empty seen-set. -/
def firstCards (infos : List CardInfo) : List CardInfo :=
  dedupRaw [] infos

/-- Paginated envelope of the scheduling pipeline in `helpers.ts`. -/
structure ScwsOut where
  total : Int
  hasMore : Bool
  notes : List CardWithScheduling
  deriving DecidableEq, Repr

/-- Model of `searchCardsWithScheduling` in `helpers.ts`: `allInfos` is
the bulk-fetched card list for the query's card ids. -/
def searchCardsWithScheduling (cfg : FieldsCfg) (allInfos : List CardInfo)
    (limit : Option Int) (inc : Option IncludeFields) (page : Option Int)
    (maxResults : Int) : ScwsOut :=
  let allResults := scwsDedup cfg inc allInfos
  let total : Int := allResults.length
  let eLimit := effLimit limit maxResults
  let start := startOffset limit page maxResults
  let notes := if 0 < eLimit then jsSlice allResults start (start + eLimit) else allResults
  { total := total
    hasMore := decide (start + (notes.length : Int) < total)
    notes := notes }

/-- Response envelope of an AnkiConnect exchange (`anki-client.ts`):
a result and an error field that is a string or null. -/
structure AnkiResponse (α : Type) where
  result : α
  error : Option String
  deriving DecidableEq, Repr

/-- Model of `invoke` in `anki-client.ts` after the fetch round trip:
`respOk` is `resp.ok`, `status`/`statusText` describe the HTTP status,
and `data` is the parsed envelope.  A thrown `Error` is an `Except.error`
carrying the message. -/
def invoke (α : Type) (respOk : Bool) (status : Int) (statusText : String)
    (data : AnkiResponse α) : Except String α :=
  if respOk = false then
    Except.error ("AnkiConnect HTTP error: " ++ toString status ++ " " ++ statusText)
  else
    match data.error with
    | some e => if e = "" then Except.ok data.result else Except.error ("AnkiConnect error: " ++ e)
    | none => Except.ok data.result

/-- One field declaration of a practice-note template (`config.ts`). -/
structure PracticeFieldConfig where
  name : String
  description : String
  required : Bool
  deriving DecidableEq, Repr

/-- Model of `PracticeNotesConfig` in `config.ts`. -/
structure PracticeNotesConfig where
  name : String
  deckName : String
  noteType : String
  description : String
  fields : List PracticeFieldConfig
  allowedTags : List String
  rejectDuplicates : Option String
  defaultTag : String
  deriving DecidableEq, Repr

/-- Backend calls the create handler can issue, in order. -/
inductive AnkiCall where
  | findNotes (query : String)
  | createDeck (deck : String)
  | addNote (deck model : String) (fields : List (String × String)) (tags : List String)
  deriving DecidableEq, Repr

/-- A call is a mutation when it creates a collection or a record. -/
def isMutation : AnkiCall → Bool
  | .findNotes _ => false
  | .createDeck _ => true
  | .addNote _ _ _ _ => true

/-- Response of the create handler.  `none` models an absent JSON key;
`echoed` is the echo of every truthy caller-supplied field. -/
structure CreateResult where
  success : Bool
  noteId : Option Int
  tags : List String
  reason : Option String
  existingNoteIds : Option (List Int)
  echoed : List (String × String)
  deriving DecidableEq, Repr

/-- Field map sent to `addNote`: every declared field, caller value or
empty string (`fields[field.name] = args[field.name] ?? ""`). -/
def assembledFields (cfg : PracticeNotesConfig) (args : List (String × String)) :
    List (String × String) :=
  cfg.fields.map (fun f => (f.name, (args.lookup f.name).getD ""))

/-- Value of the configured reject-duplicate field in the assembled map
(`fields[cfg.rejectDuplicates]`, with a JS truthy check pending). -/
def dupFieldValue (cfg : PracticeNotesConfig) (args : List (String × String)) (rd : String) :
    String :=
  ((assembledFields cfg args).lookup rd).getD ""

/-- Model of the `create_{name}` handler built by `buildPracticeTools`:
`dupBackend` is the `findNotes` oracle and `newNoteId` the id returned by
`addNote`.  The first component is the ordered trace of backend calls. -/
def createNoteHandler (cfg : PracticeNotesConfig) (args : List (String × String))
    (dupBackend : String → List Int) (newNoteId : Int) : List AnkiCall × CreateResult :=
  let fields := assembledFields cfg args
  let createCalls : List AnkiCall :=
    [AnkiCall.createDeck cfg.deckName,
     AnkiCall.addNote cfg.deckName cfg.noteType fields [cfg.defaultTag]]
  let successRes : CreateResult :=
    { success := true
      noteId := some newNoteId
      tags := [cfg.defaultTag]
      reason := none
      existingNoteIds := none
      echoed := cfg.fields.filterMap (fun f =>
        match args.lookup f.name with
        | some v => if v = "" then none else some (f.name, v)
        | none => none) }
  match cfg.rejectDuplicates with
  | none => (createCalls, successRes)
  | some rd =>
    if rd = "" then (createCalls, successRes)
    else
      let value := (fields.lookup rd).getD ""
      if value = "" then (createCalls, successRes)
      else
        let q := rd ++ ":" ++ value
        let existing := dupBackend q
        if existing.isEmpty then (AnkiCall.findNotes q :: createCalls, successRes)
        else
          ([AnkiCall.findNotes q],
           { success := false
             noteId := none
             tags := []
             reason := some ("A note with " ++ rd ++ " \"" ++ value ++ "\" already exists.")
             existingNoteIds := some existing
             echoed := [] })

/-- One custom-parameter declaration of a preset (`config.ts`); the
default value is kept in its rendered string form. -/
structure PresetParameter where
  pType : String
  description : String
  default : String
  deriving DecidableEq, Repr

/-- Model of the `Preset` interface of `config.ts`.  `parameters` is the
ordered key list of the custom-parameter record. -/
structure Preset where
  name : String
  description : String
  baseQuery : String
  noteType : String
  parameters : List (String × PresetParameter)
  searchFields : List String
  searchDescription : Option String
  defaultReturnedFields : List String
  optionalReturnedFields : List String
  optionalReturnedTags : Bool
  tagFilters : Option (List String)
  includeSchedulingData : Bool
  defaultLimit : Int
  defaultSort : String
  sortOptions : List String
  deriving DecidableEq, Repr

/-- Insert a key into a JS-object key list: an assignment to an existing
key keeps its position, a new key is appended. -/
def insertKey (l : List String) (k : String) : List String :=
  if k ∈ l then l else l ++ [k]

/-- Ordered key set of the parameter schema produced by
`buildPresetTool` in `tools.ts`: custom parameters, then `search`,
`include`, `tags` and `sort` under their configuration conditions, then
always `limit` and `page`. -/
def buildPresetToolParams (p : Preset) : List String :=
  let l0 := p.parameters.foldl (fun acc kv => insertKey acc kv.1) []
  let l1 := if p.searchFields.isEmpty then l0 else insertKey l0 "search"
  let l2 :=
    if p.optionalReturnedFields.isEmpty && !p.optionalReturnedTags then l1
    else insertKey l1 "include"
  let l3 :=
    match p.tagFilters with
    | some ts => if ts.isEmpty then l2 else insertKey l2 "tags"
    | none => l2
  let l4 := if p.sortOptions.isEmpty then l3 else insertKey l3 "sort"
  insertKey (insertKey l4 "limit") "page"

/-- Replace the first occurrence of a pattern, as the JS
`String.prototype.replace` with a string pattern does. -/
def replaceFirst (s pat rep : String) : String :=
  match s.splitOn pat with
  | [] => s
  | [x] => x
  | x :: y :: rest => x ++ rep ++ String.intercalate pat (y :: rest)

/-- Rendered value of one custom parameter: the caller-supplied value if
present, else the declared default (values are kept pre-rendered as
strings; numeric rendering is outside the claims' scope). -/
def paramValue (custom : List (String × String)) (kv : String × PresetParameter) : String :=
  (custom.lookup kv.1).getD kv.2.default

/-- One wildcard-contains clause `Field:*term*`. -/
def wildcardClause (f term : String) : String :=
  f ++ ":*" ++ term ++ "*"

/-- Join clauses with logical OR: a single clause stands alone, two or
more are OR-joined and parenthesized. -/
def orJoin : List String → String
  | [] => ""
  | [c] => c
  | c1 :: c2 :: rest => "(" ++ String.intercalate " OR " (c1 :: c2 :: rest) ++ ")"

/-- Search expansion over the preset's search-eligible fields. -/
def searchClause (fields : List String) (term : String) : String :=
  orJoin (fields.map (fun f => wildcardClause f term))

/-- Tag-filter expansion: one `tag:` clause per tag, OR-joined. -/
def tagClause (tags : List String) : String :=
  orJoin (tags.map (fun t => "tag:" ++ t))

/-- Modelled from the spec: `buildQuery` of the preset pipeline
(`helpers.ts` of the config-driven version, absent from the sources;
only its callers in `tools.ts`, its tests and spec section 4.2 remain).
Start from the base query, substitute the first occurrence of each
custom-parameter placeholder, append the search expansion for a
non-empty term when search fields exist, append the tag expansion for a
non-empty tag list, and trim the accumulated string. -/
def buildQuery (p : Preset) (custom : List (String × String)) (search : Option String)
    (tags : Option (List String)) : String :=
  let base := p.parameters.foldl
    (fun acc kv => replaceFirst acc ("$\x7b" ++ kv.1 ++ "\x7d") (paramValue custom kv))
    p.baseQuery
  let q1 :=
    match search with
    | some t => if t ≠ "" ∧ p.searchFields ≠ [] then base ++ " " ++ searchClause p.searchFields t else base
    | none => base
  let q2 :=
    match tags with
    | some ts => if ts ≠ [] then q1 ++ " " ++ tagClause ts else q1
    | none => q1
  jsTrimStr q2

/-- Include selector of the config-driven projection: the reserved
identifier and tag flags plus one toggle per optional field key. -/
structure IncludeSelector where
  noteId : Bool
  tags : Bool
  fieldKeys : List (String × Bool)
  deriving DecidableEq, Repr

/-- Cleaning applied to every emitted field value (spec section 4.3):
strip markup tags and decode the non-breaking-space entity, strip
comment annotations, trim. -/
def cleanValue (v : String) : String :=
  stripComments (stripHtml v)

/-- Caller-visible shape of a projected note in the config-driven
pipeline: default and opted-in fields as an ordered key list, identifier
and tags only when requested. -/
structure ProjectedNote where
  noteId : Option Int
  fields : List (String × String)
  tags : Option (List String)
  deriving DecidableEq, Repr

/-- The truthy opted-in field keys of a selector, skipping the two
reserved keys, keys naming no field on the record, and the default
fields (which are emitted unconditionally anyway). -/
def optedKeys (n : NoteInfo) (defaults : List String) (sel : IncludeSelector) : List String :=
  (sel.fieldKeys.filter (fun kb =>
    kb.2 && !(kb.1 == "noteId") && !(kb.1 == "tags")
      && (n.fields.lookup kb.1).isSome && !(defaults.contains kb.1))).map Prod.fst

/-- Modelled from the spec: the generic result projector
`project(record, defaultFields, includeSelector)` of the config-driven
pipeline (spec section 4.3; the function itself is absent from the
sources).  Default fields are emitted unconditionally with missing
values degraded to the empty string; other truthy selector keys are
emitted only when the record has the field; identifier and tags are
emitted exactly when their reserved flags are set. -/
def projectNote (n : NoteInfo) (defaults : List String) (inc : Option IncludeSelector) :
    ProjectedNote :=
  { noteId :=
      if (inc.map IncludeSelector.noteId).getD false then some n.noteId else none
    fields :=
      defaults.map (fun k => (k, cleanValue (fieldValue n.fields k)))
        ++ (match inc with
            | some sel => (optedKeys n defaults sel).map (fun k => (k, cleanValue (fieldValue n.fields k)))
            | none => [])
    tags :=
      if (inc.map IncludeSelector.tags).getD false then some n.tags else none }

/-- Projected card of the scheduling-aware pipeline: the projected
fields plus the scheduling statistics of the winning card. -/
structure SchedResult where
  noteId : Option Int
  fields : List (String × String)
  interval : Int
  ease : Int
  lapses : Int
  reps : Int
  deriving DecidableEq, Repr

/-- Projection of one card in the config-driven scheduling pipeline
(spec section 4.5 step 4): project the winning card's fields as the
generic projector does, then attach its scheduling statistics verbatim. -/
def projectCardSched (defaults : List String) (inc : Option IncludeSelector) (c : CardInfo) :
    SchedResult :=
  { noteId := if (inc.map IncludeSelector.noteId).getD false then some c.note else none
    fields :=
      defaults.map (fun k => (k, cleanValue (fieldValue c.fields k)))
        ++ (match inc with
            | some sel =>
              ((sel.fieldKeys.filter (fun kb =>
                kb.2 && !(kb.1 == "noteId") && !(kb.1 == "tags")
                  && (c.fields.lookup kb.1).isSome && !(defaults.contains kb.1))).map Prod.fst).map
                (fun k => (k, cleanValue (fieldValue c.fields k)))
            | none => [])
    interval := c.interval
    ease := c.ease
    lapses := c.lapses
    reps := c.reps }

/-- Modelled from the spec: the scheduling sort step of the
config-driven pipeline (spec section 4.5 step 5): the four scheduling
modes sort the deduplicated set stably, any other mode is a no-op. -/
def schedSort (sort : String) (l : List SchedResult) : List SchedResult :=
  if sort = "lapses_asc" then List.insertionSort (fun a b => a.lapses ≤ b.lapses) l
  else if sort = "lapses_desc" then List.insertionSort (fun a b => b.lapses ≤ a.lapses) l
  else if sort = "ease_asc" then List.insertionSort (fun a b => a.ease ≤ b.ease) l
  else if sort = "ease_desc" then List.insertionSort (fun a b => b.ease ≤ a.ease) l
  else l

/-- Paginated envelope of the config-driven pipeline, including the
effective page number. -/
structure SchedOut where
  total : Int
  page : Int
  hasMore : Bool
  notes : List SchedResult
  deriving DecidableEq, Repr

/-- Modelled from the spec: the config-driven
`searchCardsWithScheduling` (spec section 4.5; the sorting variant is
absent from the sources, only its callers and tests remain): fetch all
candidate cards, deduplicate first-wins by note id (the loop kept from
the in-source predecessor), project, apply the requested scheduling
sort over the whole deduplicated set, then paginate per section 4.4. -/
def searchCardsWithSchedulingSorted (allInfos : List CardInfo) (defaults : List String)
    (limit page : Int) (inc : Option IncludeSelector) (sort : String) : SchedOut :=
  let allResults := (firstCards allInfos).map (projectCardSched defaults inc)
  let sorted := schedSort sort allResults
  let total : Int := allResults.length
  let ePage := max 1 page
  let start := (ePage - 1) * limit
  let notes := if 0 < limit then jsSlice sorted start (start + limit) else sorted
  { total := total
    page := ePage
    hasMore := decide (start + (notes.length : Int) < total)
    notes := notes }

/-- Concrete card used by the examples: note 1, five lapses. -/
def cardAEx : CardInfo :=
  { cardId := 10, note := 1, deckName := "TestDeck", modelName := "TestModel"
    interval := 30, ease := 2100, lapses := 5, reps := 20, due := 100
    fields := [("Hanzi", { value := "word", order := 0 })] }

/-- Concrete card sharing the note id of `cardAEx` but with different
scheduling statistics. -/
def cardBEx : CardInfo :=
  { cardId := 20, note := 1, deckName := "TestDeck", modelName := "TestModel"
    interval := 10, ease := 1800, lapses := 8, reps := 15, due := 200
    fields := [("Hanzi", { value := "word", order := 0 })] }

/-- Concrete card on a distinct note, with the most lapses. -/
def cardCEx : CardInfo :=
  { cardId := 30, note := 2, deckName := "TestDeck", modelName := "TestModel"
    interval := 3, ease := 1500, lapses := 9, reps := 12, due := 300
    fields := [("Hanzi", { value := "worse word", order := 0 })] }

/-- Practice-note template with duplicate rejection on `Front`
(the `vocab` entry of the test configuration). -/
def cfgVocabEx : PracticeNotesConfig :=
  { name := "vocab"
    deckName := "Vocab"
    noteType := "TestModel"
    description := "Save a new word."
    fields :=
      [{ name := "Front", description := "Word", required := true },
       { name := "Back", description := "Definition", required := true }]
    allowedTags := ["verb", "noun"]
    rejectDuplicates := some "Front"
    defaultTag := "new" }

/-- Duplicate-check oracle: one existing note matches `Front:existing`. -/
def dupBackendEx : String → List Int :=
  fun q => if q = "Front:existing" then [99] else []

/-- Preset resembling the test configuration's `search_notes` entry. -/
def presetSearchNotesEx : Preset :=
  { name := "search_notes"
    description := "Search vocabulary notes."
    baseQuery := "\"deck:TestDeck\""
    noteType := "TestModel"
    parameters := []
    searchFields := ["Front", "Back"]
    searchDescription := some "Search front and back fields."
    defaultReturnedFields := ["Front"]
    optionalReturnedFields := ["Back", "Extra"]
    optionalReturnedTags := true
    tagFilters := some ["verb", "noun"]
    includeSchedulingData := false
    defaultLimit := 25
    defaultSort := "added_desc"
    sortOptions := ["added_asc", "added_desc", "modified_asc", "modified_desc"] }

/-- Preset with a single search-eligible field. -/
def presetSingleFieldEx : Preset :=
  { presetSearchNotesEx with name := "single", searchFields := ["Front"] }

/-- Preset whose custom-parameter record declares a key named `search`
although no search-eligible field exists. -/
def presetCustomSearchEx : Preset :=
  { presetSearchNotesEx with
      name := "weird"
      parameters := [("search", { pType := "number", description := "days back", default := "7" })]
      searchFields := [] }

/-- Note-info oracle used by the pagination witness: each id is mapped
to a note whose only field is its decimal rendering. -/
def notesInfoFnEx : List Int → List NoteInfo :=
  fun ids => ids.map (fun i =>
    { noteId := i, modelName := "TestModel", tags := []
      fields := [("Hanzi", { value := toString i, order := 0 })]
      mod := i, cards := [] })

/-! Helper lemmas about the deduplication loop. -/

theorem mem_dedupRaw_note (cs : List CardInfo) :
    ∀ (seen : List Int) (n : Int),
      n ∈ (dedupRaw seen cs).map (fun c => c.note) ↔
        n ∈ cs.map (fun c => c.note) ∧ n ∉ seen := by
  induction cs with
  | nil => intro seen n; simp [dedupRaw]
  | cons c cs ih =>
    intro seen n
    by_cases hc : c.note ∈ seen
    · simp only [dedupRaw, if_pos hc, ih, List.map_cons, List.mem_cons]
      constructor
      · rintro ⟨h1, h2⟩; exact ⟨Or.inr h1, h2⟩
      · rintro ⟨h1 | h1, h2⟩
        · exact absurd (h1 ▸ hc) h2
        · exact ⟨h1, h2⟩
    · simp only [dedupRaw, if_neg hc, List.map_cons, List.mem_cons, ih]
      constructor
      · rintro (h | ⟨h1, h2⟩)
        · exact ⟨Or.inl h, h ▸ hc⟩
        · exact ⟨Or.inr h1, fun hn => h2 (Or.inr hn)⟩
      · rintro ⟨h1 | h1, h2⟩
        · exact Or.inl h1
        · by_cases he : n = c.note
          · exact Or.inl he
          · exact Or.inr ⟨h1, by simp [List.mem_cons, he, h2]⟩

theorem nodup_dedupRaw_note (cs : List CardInfo) :
    ∀ seen : List Int, ((dedupRaw seen cs).map (fun c => c.note)).Nodup := by
  induction cs with
  | nil => intro seen; simp [dedupRaw]
  | cons c cs ih =>
    intro seen
    by_cases hc : c.note ∈ seen
    · simpa [dedupRaw, if_pos hc] using ih seen
    · simp only [dedupRaw, if_neg hc, List.map_cons, List.nodup_cons]
      refine ⟨fun hmem => ?_, ih _⟩
      have := (mem_dedupRaw_note cs (c.note :: seen) c.note).mp hmem
      exact this.2 (List.mem_cons_self _ _)

theorem find_dedupRaw (cs : List CardInfo) :
    ∀ (seen : List Int) (c : CardInfo), c ∈ dedupRaw seen cs →
      cs.find? (fun d => d.note == c.note) = some c := by
  induction cs with
  | nil => intro seen c h; simp [dedupRaw] at h
  | cons c' cs ih =>
    intro seen c h
    by_cases hc : c'.note ∈ seen
    · rw [dedupRaw, if_pos hc] at h
      have hne : c'.note ≠ c.note := by
        intro he
        have hmem : c.note ∈ (dedupRaw seen cs).map (fun c => c.note) :=
          List.mem_map_of_mem _ h
        exact ((mem_dedupRaw_note cs seen c.note).mp hmem).2 (he ▸ hc)
      rw [List.find?_cons_of_neg _ (by simpa using hne)]
      exact ih seen c h
    · rw [dedupRaw, if_neg hc] at h
      rcases List.mem_cons.mp h with he | hmem
      · subst he
        exact List.find?_cons_of_pos _ (by simp)
      · have hne : c'.note ≠ c.note := by
          intro he
          have hm : c.note ∈ (dedupRaw (c'.note :: seen) cs).map (fun c => c.note) :=
            List.mem_map_of_mem _ hmem
          exact ((mem_dedupRaw_note cs _ c.note).mp hm).2 (by simp [he])
        rw [List.find?_cons_of_neg _ (by simpa using hne)]
        exact ih _ c hmem

theorem dedupLoop_eq_map (cfg : FieldsCfg) (inc : Option IncludeFields) (cs : List CardInfo) :
    ∀ seen : List Int, dedupLoop cfg inc seen cs = (dedupRaw seen cs).map (projectCardOld cfg inc) := by
  induction cs with
  | nil => intro seen; simp [dedupLoop, dedupRaw]
  | cons c cs ih =>
    intro seen
    by_cases hc : c.note ∈ seen
    · simp [dedupLoop, dedupRaw, if_pos hc, ih]
    · simp [dedupLoop, dedupRaw, if_neg hc, ih]

/-- C2.  In the scheduling-aware pipeline the deduplicated result set
equals the projection of the first-occurrence card list: it holds one
entry per distinct note id (no duplicate note ids, and every fetched
note id is represented), each surviving entry is the first card in fetch
order bearing its note id, later cards of an already-seen note are
dropped, and the surfaced scheduling statistics come verbatim from the
surviving card. -/
theorem searchCardsWithScheduling_dedup_first_wins
    (cfg : FieldsCfg) (inc : Option IncludeFields) (infos : List CardInfo) :
    scwsDedup cfg inc infos = (firstCards infos).map (projectCardOld cfg inc) ∧
    ((firstCards infos).map (fun c => c.note)).Nodup ∧
    (∀ n, n ∈ (firstCards infos).map (fun c => c.note) ↔ n ∈ infos.map (fun c => c.note)) ∧
    (∀ c, c ∈ firstCards infos → infos.find? (fun d => d.note == c.note) = some c) ∧
    (∀ c, (projectCardOld cfg inc c).interval = c.interval ∧
      (projectCardOld cfg inc c).ease = c.ease ∧
      (projectCardOld cfg inc c).lapses = c.lapses ∧
      (projectCardOld cfg inc c).reps = c.reps) := by
  refine ⟨dedupLoop_eq_map cfg inc infos [], nodup_dedupRaw_note infos [], ?_, ?_, ?_⟩
  · intro n
    simpa [firstCards] using mem_dedupRaw_note infos [] n
  · intro c h
    exact find_dedupRaw infos [] c h
  · intro c
    exact ⟨rfl, rfl, rfl, rfl⟩

/-- Witness for C2 at a concrete two-card fetch sharing one note id:
the first card wins and is the one `find?` locates. -/
theorem searchCardsWithScheduling_dedup_first_wins_witness :
    scwsDedup fcfgEx none [cardAEx, cardBEx] =
      (firstCards [cardAEx, cardBEx]).map (projectCardOld fcfgEx none) ∧
    [cardAEx, cardBEx].find? (fun d => d.note == cardAEx.note) = some cardAEx := by
  have h := searchCardsWithScheduling_dedup_first_wins fcfgEx none [cardAEx, cardBEx]
  exact ⟨h.1, h.2.2.2.1 cardAEx (by decide)⟩

/-- C7.  Every emitted field value is cleaned before output: on a note
whose first field is an HTML-bold fragment with a literal non-breaking
space and whose pinyin field carries a comment annotation, the compact
projection strips the tags, decodes the entity and removes the
annotation entirely. -/
theorem toCompact_cleans_field_values :
    toCompact fcfgEx noteEx (some { noteId := false, pinyin := true, english := false, tags := false }) =
      { noteId := none, hanzi := "bold text", pinyin := some "ni3 hao3", english := none,
        tags := none } ∧
    stripHtml "<b>bold</b>&nbsp;text" = "bold text" ∧
    stripComments "ni3 hao3 <!--third tone-->" = "ni3 hao3" := by
  refine ⟨?_, ?_, ?_⟩ <;> decide

/-- C9.  Backend failures propagate: a non-empty error string in the
response envelope makes `invoke` raise an error carrying that message
(never a success), a non-success HTTP status raises too, and a call only
succeeds when the status was ok and the error field was null or empty. -/
theorem invoke_failures_propagate (α : Type) (ok : Bool) (st : Int) (sx : String)
    (data : AnkiResponse α) (e : String) :
    (ok = true → data.error = some e → e ≠ "" →
      invoke α ok st sx data = Except.error ("AnkiConnect error: " ++ e)) ∧
    (data.error = some e → e ≠ "" → ∃ msg, invoke α ok st sx data = Except.error msg) ∧
    (ok = false →
      invoke α ok st sx data =
        Except.error ("AnkiConnect HTTP error: " ++ toString st ++ " " ++ sx)) ∧
    (∀ v, invoke α ok st sx data = Except.ok v →
      ok = true ∧ (data.error = none ∨ data.error = some "")) := by
  refine ⟨?_, ?_, ?_, ?_⟩
  · intro hok herr hne
    subst hok
    simp [invoke, herr, hne]
  · intro herr hne
    cases ok with
    | false =>
      exact ⟨"AnkiConnect HTTP error: " ++ toString st ++ " " ++ sx, by simp [invoke]⟩
    | true =>
      exact ⟨"AnkiConnect error: " ++ e, by simp [invoke, herr, hne]⟩
  · intro hok
    subst hok
    simp [invoke]
  · intro v hv
    cases ok with
    | false => simp [invoke] at hv
    | true =>
      refine ⟨rfl, ?_⟩
      cases herr : data.error with
      | none => exact Or.inl rfl
      | some e2 =>
        by_cases he2 : e2 = ""
        · exact Or.inr (by simp [herr, he2])
        · simp [invoke, herr, he2] at hv

/-- Witness for C9: a populated error envelope raises with the message,
and an HTTP 500 raises. -/
theorem invoke_failures_propagate_witness :
    invoke Int true 200 "OK" { result := 0, error := some "boom" } =
      Except.error ("AnkiConnect error: " ++ "boom") ∧
    invoke Int false 500 "Server Error" { result := 0, error := none } =
      Except.error ("AnkiConnect HTTP error: " ++ toString (500 : Int) ++ " " ++ "Server Error") := by
  have h1 := invoke_failures_propagate Int true 200 "OK" { result := 0, error := some "boom" } "boom"
  have h2 := invoke_failures_propagate Int false 500 "Server Error"
    { result := 0, error := none } ""
  exact ⟨h1.1 rfl rfl (by decide), h2.2.2.1 rfl⟩

/-- C10.  When the reject-duplicate field's caller-supplied value is
empty or missing, the create handler issues no find-by-query call and
proceeds directly to create the deck and the note. -/
theorem createNoteHandler_empty_value_skips_check
    (cfg : PracticeNotesConfig) (args : List (String × String))
    (backend : String → List Int) (nid : Int) (rd : String)
    (hrd : cfg.rejectDuplicates = some rd) (hrdne : rd ≠ "")
    (hval : dupFieldValue cfg args rd = "") :
    (createNoteHandler cfg args backend nid).1 =
      [AnkiCall.createDeck cfg.deckName,
       AnkiCall.addNote cfg.deckName cfg.noteType (assembledFields cfg args) [cfg.defaultTag]] ∧
    (∀ q, AnkiCall.findNotes q ∉ (createNoteHandler cfg args backend nid).1) ∧
    (createNoteHandler cfg args backend nid).2.success = true := by
  have hval2 : ((assembledFields cfg args).lookup rd).getD "" = "" := hval
  refine ⟨?_, ?_, ?_⟩ <;>
    simp [createNoteHandler, hrd, hrdne, hval2]

/-- Witness for C10: the `vocab` template with no `Front` argument
creates the note without any duplicate query. -/
theorem createNoteHandler_empty_value_skips_check_witness :
    (createNoteHandler cfgVocabEx [("Back", "def")] dupBackendEx 44).1 =
      [AnkiCall.createDeck "Vocab",
       AnkiCall.addNote "Vocab" "TestModel" [("Front", ""), ("Back", "def")] ["new"]] ∧
    (createNoteHandler cfgVocabEx [("Back", "def")] dupBackendEx 44).2.success = true := by
  have h := createNoteHandler_empty_value_skips_check cfgVocabEx [("Back", "def")]
    dupBackendEx 44 "Front" rfl (by decide) (by decide)
  refine ⟨h.1.trans (by decide), h.2.2⟩

/-- C5.  On a creation template with a configured reject-duplicate field
and a non-empty value for it: when the backend reports matching notes
the handler performs zero mutation calls and returns a failure carrying
a reason and the matching identifiers; when no match exists it performs
exactly one collection-create followed by exactly one record-create and
returns success. -/
theorem createNoteHandler_duplicate_rejection
    (cfg : PracticeNotesConfig) (args : List (String × String))
    (backend : String → List Int) (nid : Int) (rd : String)
    (hrd : cfg.rejectDuplicates = some rd) (hrdne : rd ≠ "")
    (hval : dupFieldValue cfg args rd ≠ "") :
    (backend (rd ++ ":" ++ dupFieldValue cfg args rd) ≠ [] →
      (createNoteHandler cfg args backend nid).1.filter isMutation = [] ∧
      (createNoteHandler cfg args backend nid).2.success = false ∧
      (createNoteHandler cfg args backend nid).2.reason.isSome = true ∧
      (createNoteHandler cfg args backend nid).2.existingNoteIds =
        some (backend (rd ++ ":" ++ dupFieldValue cfg args rd))) ∧
    (backend (rd ++ ":" ++ dupFieldValue cfg args rd) = [] →
      (createNoteHandler cfg args backend nid).1.filter isMutation =
        [AnkiCall.createDeck cfg.deckName,
         AnkiCall.addNote cfg.deckName cfg.noteType (assembledFields cfg args) [cfg.defaultTag]] ∧
      (createNoteHandler cfg args backend nid).2.success = true) := by
  have hval2 : ((assembledFields cfg args).lookup rd).getD "" = dupFieldValue cfg args rd := rfl
  constructor
  · intro hex
    have hne : (backend (rd ++ ":" ++ dupFieldValue cfg args rd)).isEmpty = false := by
      simpa [List.isEmpty_iff] using hex
    refine ⟨?_, ?_, ?_, ?_⟩ <;>
      simp [createNoteHandler, hrd, hrdne, hval2, hval, hne, isMutation]
  · intro hex
    have hne : (backend (rd ++ ":" ++ dupFieldValue cfg args rd)).isEmpty = true := by
      simp [List.isEmpty_iff, hex]
    refine ⟨?_, ?_⟩ <;>
      simp [createNoteHandler, hrd, hrdne, hval2, hval, hne, isMutation]

/-- Witness for C5 at the `vocab` template: a call whose `Front` value
already exists performs no mutation and surfaces the matching note id. -/
theorem createNoteHandler_duplicate_rejection_witness :
    (createNoteHandler cfgVocabEx [("Front", "existing"), ("Back", "def")] dupBackendEx 44).1.filter
        isMutation = [] ∧
    (createNoteHandler cfgVocabEx [("Front", "existing"), ("Back", "def")] dupBackendEx 44).2.success
        = false ∧
    (createNoteHandler cfgVocabEx [("Front", "existing"), ("Back", "def")]
        dupBackendEx 44).2.existingNoteIds = some [99] := by
  have h := createNoteHandler_duplicate_rejection cfgVocabEx
    [("Front", "existing"), ("Back", "def")] dupBackendEx 44 "Front" rfl (by decide) (by decide)
  have h1 := h.1 (by decide)
  exact ⟨h1.1, h1.2.1, h1.2.2.2.trans (by decide)⟩

/-! Helper lemmas about JS-object key insertion. -/

theorem mem_insertKey (l : List String) (k a : String) :
    a ∈ insertKey l k ↔ a ∈ l ∨ a = k := by
  by_cases h : k ∈ l
  · simp only [insertKey, if_pos h]
    constructor
    · exact Or.inl
    · rintro (ha | ha)
      · exact ha
      · exact ha ▸ h
  · simp [insertKey, if_neg h]

theorem mem_customKeys (ps : List (String × PresetParameter)) :
    ∀ (l : List String) (a : String),
      a ∈ ps.foldl (fun acc kv => insertKey acc kv.1) l ↔ a ∈ l ∨ a ∈ ps.map Prod.fst := by
  induction ps with
  | nil => intro l a; simp
  | cons kv ps ih =>
    intro l a
    simp only [List.foldl_cons, ih, mem_insertKey, List.map_cons, List.mem_cons]
    tauto

theorem not_mem_custom_of_disjoint (p : Preset) (k : String)
    (hdisj : ∀ kv ∈ p.parameters, kv.1 ≠ k) :
    k ∉ p.parameters.map Prod.fst := by
  intro hmem
  rcases List.mem_map.mp hmem with ⟨kv, hkv, hk⟩
  exact hdisj kv hkv hk

theorem mem_ite_skip_insertKey (b : Prop) [Decidable b] (l : List String) (k a : String) :
    (a ∈ if b then l else insertKey l k) ↔ a ∈ l ∨ (a = k ∧ ¬b) := by
  by_cases hb : b
  · simp [hb]
  · simp [hb, mem_insertKey]

/-- Membership in the generated key set, characterized key by key. -/
theorem mem_buildPresetToolParams (p : Preset) (a : String) :
    a ∈ buildPresetToolParams p ↔
      a ∈ p.parameters.map Prod.fst ∨
      (a = "search" ∧ p.searchFields ≠ []) ∨
      (a = "include" ∧ (p.optionalReturnedFields ≠ [] ∨ p.optionalReturnedTags = true)) ∨
      (a = "tags" ∧ p.tagFilters.getD [] ≠ []) ∨
      (a = "sort" ∧ p.sortOptions ≠ []) ∨
      a = "limit" ∨ a = "page" := by
  simp only [buildPresetToolParams]
  rcases h3 : p.tagFilters with _ | ts <;>
    simp only [h3, Option.getD_none, Option.getD_some, mem_insertKey, mem_ite_skip_insertKey,
      mem_customKeys, List.not_mem_nil, false_or, List.isEmpty_iff, Bool.and_eq_true,
      Bool.not_eq_true', not_and_or, Bool.not_eq_false, ne_eq]
  · tauto
  · tauto

/-- Counterexample to C6 as stated: a preset whose custom-parameter
record declares a key literally named `search` produces a schema
containing a `search` parameter although the preset has no
search-eligible field. -/
theorem buildPresetToolParams_custom_search_counterexample :
    "search" ∈ buildPresetToolParams presetCustomSearchEx ∧
    presetCustomSearchEx.searchFields = [] := by
  constructor
  · decide
  · rfl

/-- C6 (amended).  For every preset whose custom parameter names avoid
the reserved names `search`, `tags` and `include`, the generated schema
contains `search` iff the preset has a search-eligible field, `tags` iff
it declares a non-empty allowed-tag vocabulary, `include` iff it has an
optional returned field or allows optional tags, and always contains
`limit` and `page`. -/
theorem buildPresetToolParams_spec (p : Preset)
    (hdisj : ∀ kv ∈ p.parameters, kv.1 ≠ "search" ∧ kv.1 ≠ "tags" ∧ kv.1 ≠ "include") :
    ("search" ∈ buildPresetToolParams p ↔ p.searchFields ≠ []) ∧
    ("tags" ∈ buildPresetToolParams p ↔ p.tagFilters.getD [] ≠ []) ∧
    ("include" ∈ buildPresetToolParams p ↔
      (p.optionalReturnedFields ≠ [] ∨ p.optionalReturnedTags = true)) ∧
    "limit" ∈ buildPresetToolParams p ∧ "page" ∈ buildPresetToolParams p := by
  have hs : "search" ∉ p.parameters.map Prod.fst :=
    not_mem_custom_of_disjoint p _ (fun kv h => (hdisj kv h).1)
  have ht : "tags" ∉ p.parameters.map Prod.fst :=
    not_mem_custom_of_disjoint p _ (fun kv h => (hdisj kv h).2.1)
  have hi : "include" ∉ p.parameters.map Prod.fst :=
    not_mem_custom_of_disjoint p _ (fun kv h => (hdisj kv h).2.2)
  refine ⟨?_, ?_, ?_, ?_, ?_⟩
  · rw [mem_buildPresetToolParams]
    constructor
    · rintro (h | ⟨_, h⟩ | ⟨ha, _⟩ | ⟨ha, _⟩ | ⟨ha, _⟩ | ha | ha) <;>
        first
        | exact absurd h hs
        | exact h
        | exact absurd ha (by decide)
    · intro h; exact Or.inr (Or.inl ⟨rfl, h⟩)
  · rw [mem_buildPresetToolParams]
    constructor
    · rintro (h | ⟨ha, _⟩ | ⟨ha, _⟩ | ⟨_, h⟩ | ⟨ha, _⟩ | ha | ha) <;>
        first
        | exact absurd h ht
        | exact h
        | exact absurd ha (by decide)
    · intro h; exact Or.inr (Or.inr (Or.inr (Or.inl ⟨rfl, h⟩)))
  · rw [mem_buildPresetToolParams]
    constructor
    · rintro (h | ⟨ha, _⟩ | ⟨_, h⟩ | ⟨ha, _⟩ | ⟨ha, _⟩ | ha | ha) <;>
        first
        | exact absurd h hi
        | exact h
        | exact absurd ha (by decide)
    · intro h; exact Or.inr (Or.inr (Or.inl ⟨rfl, h⟩))
  · rw [mem_buildPresetToolParams]; tauto
  · rw [mem_buildPresetToolParams]; tauto

/-- Witness for C6 on the `search_notes`-style preset: all five schema
keys behave as amended. -/
theorem buildPresetToolParams_spec_witness :
    "search" ∈ buildPresetToolParams presetSearchNotesEx ∧
    "tags" ∈ buildPresetToolParams presetSearchNotesEx ∧
    "include" ∈ buildPresetToolParams presetSearchNotesEx ∧
    "limit" ∈ buildPresetToolParams presetSearchNotesEx ∧
    "page" ∈ buildPresetToolParams presetSearchNotesEx := by
  have h := buildPresetToolParams_spec presetSearchNotesEx
    (by intro kv hkv; exact absurd hkv (List.not_mem_nil kv))
  exact ⟨h.1.mpr (by decide), h.2.1.mpr (by decide), h.2.2.1.mpr (Or.inl (by decide)),
    h.2.2.2.1, h.2.2.2.2⟩

theorem lookup_isSome_of_mem_optedKeys (n : NoteInfo) (defaults : List String)
    (sel : IncludeSelector) (k : String) (h : k ∈ optedKeys n defaults sel) :
    (n.fields.lookup k).isSome = true := by
  unfold optedKeys at h
  rcases List.mem_map.mp h with ⟨kb, hkb, rfl⟩
  have hcond := (List.mem_filter.mp hkb).2
  simp only [Bool.and_eq_true] at hcond
  exact hcond.1.2

/-- C8.  The projector emits the numeric identifier and the tag list
exactly when the include selector requests them and never by default,
and a truthy include key naming a field absent from the record (and not
among the default fields) is omitted from the output entirely. -/
theorem projectNote_include_policy (n : NoteInfo) (defaults : List String)
    (inc : IncludeSelector) :
    ((projectNote n defaults (some inc)).noteId.isSome = true ↔ inc.noteId = true) ∧
    ((projectNote n defaults (some inc)).tags.isSome = true ↔ inc.tags = true) ∧
    (projectNote n defaults none).noteId = none ∧
    (projectNote n defaults none).tags = none ∧
    (∀ k b, (k, b) ∈ inc.fieldKeys → n.fields.lookup k = none → k ∉ defaults →
      k ∉ (projectNote n defaults (some inc)).fields.map Prod.fst) := by
  refine ⟨?_, ?_, ?_, ?_, ?_⟩
  · cases hb : inc.noteId <;> simp [projectNote, hb]
  · cases hb : inc.tags <;> simp [projectNote, hb]
  · simp [projectNote]
  · simp [projectNote]
  · intro k b _ hlook hdef hmem
    simp only [projectNote, List.map_append, List.map_map, List.mem_append] at hmem
    rcases hmem with hmem | hmem
    · exact hdef (by simpa using hmem)
    · have hk : k ∈ optedKeys n defaults inc := by simpa using hmem
      have hsome := lookup_isSome_of_mem_optedKeys n defaults inc k hk
      rw [hlook] at hsome
      simp at hsome

/-- Witness for C8: requesting a key the record does not have leaves it
out of the projected fields, while identifier and tags follow their
flags. -/
theorem projectNote_include_policy_witness :
    "Missing" ∉ (projectNote noteEx ["Hanzi"]
      (some { noteId := true, tags := false, fieldKeys := [("Missing", true)] })).fields.map
        Prod.fst ∧
    (projectNote noteEx ["Hanzi"]
      (some { noteId := true, tags := false, fieldKeys := [("Missing", true)] })).noteId.isSome
        = true ∧
    (projectNote noteEx ["Hanzi"] none).tags = none := by
  have h := projectNote_include_policy noteEx ["Hanzi"]
    { noteId := true, tags := false, fieldKeys := [("Missing", true)] }
  exact ⟨h.2.2.2.2 "Missing" true (by decide) (by decide) (by decide),
    h.1.mpr rfl, h.2.2.2.1⟩

/-! Pagination slice arithmetic. -/

theorem jsSlice_nonneg {α : Type} (l : List α) (s L : Int) (hs : 0 ≤ s) (hL : 0 < L) :
    jsSlice l s (s + L) = (l.drop s.toNat).take L.toNat := by
  simp only [jsSlice]
  rw [if_neg (by omega), if_neg (by omega), List.drop_take]
  rcases le_or_lt (l.length : Int) s with hns | hns
  · have h1 : (min s (l.length : Int)).toNat = l.length := by omega
    have h2 : l.length ≤ s.toNat := by omega
    rw [h1, List.drop_length, List.drop_eq_nil_of_le h2]
    simp
  · have h1 : (min s (l.length : Int)).toNat = s.toNat := by omega
    rw [h1]
    rcases le_or_lt (s + L) (l.length : Int) with hsl | hsl
    · have h2 : (min (s + L) (l.length : Int)).toNat - s.toNat = L.toNat := by omega
      rw [h2]
    · have h2 : (min (s + L) (l.length : Int)).toNat - s.toNat = l.length - s.toNat := by omega
      have hlen : (l.drop s.toNat).length = l.length - s.toNat := List.length_drop ..
      rw [h2, ← hlen, List.take_length _, List.take_of_length_le (by rw [hlen]; omega)]

/-- C4.  In the scheduling-aware pipeline the requested scheduling sort
mode is applied over the entire deduplicated result set and pagination
slices the sorted set afterwards: the returned page is the
drop-then-take slice of the sorted full set, hence a contiguous segment
of it; the four scheduling modes are stable permutations sorted by their
keys, and any other sort mode leaves the deduplicated order unchanged. -/
theorem searchCardsWithSchedulingSorted_sort_then_paginate
    (infos : List CardInfo) (defaults : List String) (inc : Option IncludeSelector)
    (sort : String) (limit page : Int) (hlim : 0 < limit) :
    (searchCardsWithSchedulingSorted infos defaults limit page inc sort).notes =
      ((schedSort sort ((firstCards infos).map (projectCardSched defaults inc))).drop
        ((max 1 page - 1) * limit).toNat).take limit.toNat ∧
    (∃ pre post,
      pre ++ (searchCardsWithSchedulingSorted infos defaults limit page inc sort).notes ++ post =
        schedSort sort ((firstCards infos).map (projectCardSched defaults inc))) ∧
    (searchCardsWithSchedulingSorted infos defaults limit page inc sort).total =
      (((firstCards infos).map (projectCardSched defaults inc)).length : Int) ∧
    (∀ l, (schedSort "lapses_desc" l).Perm l ∧
      List.Sorted (fun a b : SchedResult => b.lapses ≤ a.lapses) (schedSort "lapses_desc" l)) ∧
    (∀ l, (schedSort "lapses_asc" l).Perm l ∧
      List.Sorted (fun a b : SchedResult => a.lapses ≤ b.lapses) (schedSort "lapses_asc" l)) ∧
    (∀ l, (schedSort "ease_asc" l).Perm l ∧
      List.Sorted (fun a b : SchedResult => a.ease ≤ b.ease) (schedSort "ease_asc" l)) ∧
    (∀ l, (schedSort "ease_desc" l).Perm l ∧
      List.Sorted (fun a b : SchedResult => b.ease ≤ a.ease) (schedSort "ease_desc" l)) ∧
    (sort ≠ "lapses_asc" → sort ≠ "lapses_desc" → sort ≠ "ease_asc" → sort ≠ "ease_desc" →
      ∀ l, schedSort sort l = l) := by
  have hs : (0 : Int) ≤ (max 1 page - 1) * limit := by
    have h1 : (1 : Int) ≤ max 1 page := le_max_left 1 page
    exact mul_nonneg (by omega) hlim.le
  have hnotes :
      (searchCardsWithSchedulingSorted infos defaults limit page inc sort).notes =
        ((schedSort sort ((firstCards infos).map (projectCardSched defaults inc))).drop
          ((max 1 page - 1) * limit).toNat).take limit.toNat := by
    simp only [searchCardsWithSchedulingSorted, if_pos hlim]
    exact jsSlice_nonneg _ _ _ hs hlim
  refine ⟨hnotes, ?_, ?_, ?_, ?_, ?_, ?_, ?_⟩
  · refine ⟨(schedSort sort ((firstCards infos).map (projectCardSched defaults inc))).take
      ((max 1 page - 1) * limit).toNat,
      ((schedSort sort ((firstCards infos).map (projectCardSched defaults inc))).drop
        ((max 1 page - 1) * limit).toNat).drop limit.toNat, ?_⟩
    rw [hnotes, List.append_assoc, List.take_append_drop, List.take_append_drop]
  · simp [searchCardsWithSchedulingSorted]
  · intro l
    constructor
    · unfold schedSort
      rw [if_neg (by decide), if_pos rfl]
      exact List.perm_insertionSort _ l
    · unfold schedSort
      rw [if_neg (by decide), if_pos rfl]
      haveI : IsTotal SchedResult (fun a b => b.lapses ≤ a.lapses) :=
        ⟨fun a b => le_total b.lapses a.lapses⟩
      haveI : IsTrans SchedResult (fun a b => b.lapses ≤ a.lapses) :=
        ⟨fun _ _ _ h1 h2 => le_trans h2 h1⟩
      exact List.sorted_insertionSort _ l
  · intro l
    constructor
    · unfold schedSort
      rw [if_pos rfl]
      exact List.perm_insertionSort _ l
    · unfold schedSort
      rw [if_pos rfl]
      haveI : IsTotal SchedResult (fun a b => a.lapses ≤ b.lapses) :=
        ⟨fun a b => le_total a.lapses b.lapses⟩
      haveI : IsTrans SchedResult (fun a b => a.lapses ≤ b.lapses) :=
        ⟨fun _ _ _ h1 h2 => le_trans h1 h2⟩
      exact List.sorted_insertionSort _ l
  · intro l
    constructor
    · unfold schedSort
      rw [if_neg (by decide), if_neg (by decide), if_pos rfl]
      exact List.perm_insertionSort _ l
    · unfold schedSort
      rw [if_neg (by decide), if_neg (by decide), if_pos rfl]
      haveI : IsTotal SchedResult (fun a b => a.ease ≤ b.ease) :=
        ⟨fun a b => le_total a.ease b.ease⟩
      haveI : IsTrans SchedResult (fun a b => a.ease ≤ b.ease) :=
        ⟨fun _ _ _ h1 h2 => le_trans h1 h2⟩
      exact List.sorted_insertionSort _ l
  · intro l
    constructor
    · unfold schedSort
      rw [if_neg (by decide), if_neg (by decide), if_neg (by decide), if_pos rfl]
      exact List.perm_insertionSort _ l
    · unfold schedSort
      rw [if_neg (by decide), if_neg (by decide), if_neg (by decide), if_pos rfl]
      haveI : IsTotal SchedResult (fun a b => b.ease ≤ a.ease) :=
        ⟨fun a b => le_total b.ease a.ease⟩
      haveI : IsTrans SchedResult (fun a b => b.ease ≤ a.ease) :=
        ⟨fun _ _ _ h1 h2 => le_trans h2 h1⟩
      exact List.sorted_insertionSort _ l
  · intro h1 h2 h3 h4 l
    simp [schedSort, h1, h2, h3, h4]

/-- Witness for C4 on a three-card fetch (two cards sharing a note):
with `lapses_desc`, limit 1 and page 2, the returned page is the second
element of the sorted deduplicated set. -/
theorem searchCardsWithSchedulingSorted_sort_then_paginate_witness :
    (searchCardsWithSchedulingSorted [cardAEx, cardBEx, cardCEx] ["Hanzi"] 1 2 none
        "lapses_desc").notes =
      ((schedSort "lapses_desc"
        ((firstCards [cardAEx, cardBEx, cardCEx]).map (projectCardSched ["Hanzi"] none))).drop
          1).take 1 ∧
    (searchCardsWithSchedulingSorted [cardAEx, cardBEx, cardCEx] ["Hanzi"] 1 2 none
        "lapses_desc").total = 2 := by
  have h := searchCardsWithSchedulingSorted_sort_then_paginate [cardAEx, cardBEx, cardCEx]
    ["Hanzi"] none "lapses_desc" 1 2 (by decide)
  constructor
  · rw [h.1]
    decide
  · rw [h.2.2.1]
    decide

/-! Trim lemmas used by the query-builder proof. -/

theorem length_dropWhile_le {α : Type} (p : α → Bool) (l : List α) :
    (l.dropWhile p).length ≤ l.length := by
  induction l with
  | nil => simp
  | cons c t ih =>
    rw [List.dropWhile_cons]
    split_ifs
    · exact le_trans ih (Nat.le_succ _)
    · simp

theorem strData_append (a b : String) : (a ++ b).data = a.data ++ b.data := rfl

theorem jsTrimL_eq_self_of (l : List Char)
    (hhead : ∀ c, l.head? = some c → isJsWs c = false)
    (hlast : ∀ c, l.getLast? = some c → isJsWs c = false) :
    jsTrimL l = l := by
  unfold jsTrimL
  have h1 : l.dropWhile isJsWs = l := by
    cases l with
    | nil => rfl
    | cons c t => rw [List.dropWhile_cons, if_neg (by simp [hhead c rfl])]
  rw [h1]
  have h2 : l.reverse.dropWhile isJsWs = l.reverse := by
    cases hr : l.reverse with
    | nil => rfl
    | cons d r =>
      have hd : l.getLast? = some d := by rw [← List.head?_reverse, hr]; rfl
      rw [List.dropWhile_cons, if_neg (by simp [hlast d hd])]
  rw [h2, List.reverse_reverse]

theorem head_not_ws_of_trim_fixed (s : String) (h : jsTrimStr s = s) (c : Char) (t : List Char)
    (hd : s.data = c :: t) : isJsWs c = false := by
  by_contra hws
  have hws2 : isJsWs c = true := by simpa using hws
  have hdata : jsTrimL s.data = s.data := congrArg String.data h
  rw [hd] at hdata
  have hlen : (jsTrimL (c :: t)).length ≤ t.length := by
    unfold jsTrimL
    rw [List.dropWhile_cons, if_pos (by simp [hws2])]
    calc ((t.dropWhile isJsWs).reverse.dropWhile isJsWs).reverse.length
        = ((t.dropWhile isJsWs).reverse.dropWhile isJsWs).length := List.length_reverse _
      _ ≤ (t.dropWhile isJsWs).reverse.length := length_dropWhile_le ..
      _ = (t.dropWhile isJsWs).length := List.length_reverse _
      _ ≤ t.length := length_dropWhile_le ..
  rw [hdata] at hlen
  simp at hlen

theorem jsTrimStr_append_noop (base clause : String)
    (hbase : jsTrimStr base = base) (hbasene : base ≠ "")
    (d : Char) (hd : clause.data.getLast? = some d) (hdws : isJsWs d = false) :
    jsTrimStr (base ++ " " ++ clause) = base ++ " " ++ clause := by
  obtain ⟨b0, bt, hb⟩ : ∃ b0 bt, base.data = b0 :: bt := by
    cases hbd : base.data with
    | nil =>
      exfalso
      apply hbasene
      cases base with
      | mk dd => subst hbd; rfl
    | cons b0 bt => exact ⟨b0, bt, rfl⟩
  have hclausene : clause.data ≠ [] := by
    intro hcn; rw [hcn] at hd; simp at hd
  have hdata : (base ++ " " ++ clause).data = b0 :: (bt ++ ' ' :: clause.data) := by
    rw [strData_append, strData_append, hb]
    simp
  have key : jsTrimL (base ++ " " ++ clause).data = (base ++ " " ++ clause).data := by
    apply jsTrimL_eq_self_of
    · intro c hc
      rw [hdata] at hc
      simp only [List.head?_cons, Option.some.injEq] at hc
      rw [← hc]
      exact head_not_ws_of_trim_fixed base hbase b0 bt hb
    · intro c hc
      rw [hdata] at hc
      have hlast : (b0 :: (bt ++ ' ' :: clause.data)).getLast? = clause.data.getLast? := by
        have h1 : b0 :: (bt ++ ' ' :: clause.data) = (b0 :: bt ++ [' ']) ++ clause.data := by
          simp
        rw [h1, List.getLast?_append_of_ne_nil _ hclausene]
      rw [hlast, hd] at hc
      cases hc
      exact hdws
  exact congrArg String.mk key

/-- C3.  `spec-modelled:` over the spec-modelled query builder, a
non-empty search term over two or more search-eligible fields appends a
parenthesized OR-join of one wildcard-contains clause per field to the
trimmed base query, while a single search-eligible field appends its
clause without parentheses. -/
theorem buildQuery_search_clause (p : Preset) (t : String)
    (hparams : p.parameters = []) (hterm : t ≠ "")
    (hbase : jsTrimStr p.baseQuery = p.baseQuery) (hbasene : p.baseQuery ≠ "") :
    (∀ f1 f2 fs, p.searchFields = f1 :: f2 :: fs →
      buildQuery p [] (some t) none =
        p.baseQuery ++ " " ++
          ("(" ++ String.intercalate " OR "
            ((f1 :: f2 :: fs).map (fun f => f ++ ":*" ++ t ++ "*")) ++ ")")) ∧
    (∀ f, p.searchFields = [f] →
      buildQuery p [] (some t) none = p.baseQuery ++ " " ++ (f ++ ":*" ++ t ++ "*")) := by
  constructor
  · intro f1 f2 fs hf
    have hne : p.searchFields ≠ [] := by rw [hf]; simp
    have hq : buildQuery p [] (some t) none =
        jsTrimStr (p.baseQuery ++ " " ++ searchClause p.searchFields t) := by
      simp only [buildQuery, hparams, List.foldl_nil]
      rw [if_pos ⟨hterm, hne⟩]
    have hcl : searchClause (f1 :: f2 :: fs) t =
        "(" ++ String.intercalate " OR "
          ((f1 :: f2 :: fs).map (fun f => f ++ ":*" ++ t ++ "*")) ++ ")" := rfl
    rw [hq, hf, hcl]
    apply jsTrimStr_append_noop _ _ hbase hbasene ')'
    · rw [strData_append]
      exact List.getLast?_concat _
    · decide
  · intro f hf
    have hne : p.searchFields ≠ [] := by rw [hf]; simp
    have hq : buildQuery p [] (some t) none =
        jsTrimStr (p.baseQuery ++ " " ++ searchClause p.searchFields t) := by
      simp only [buildQuery, hparams, List.foldl_nil]
      rw [if_pos ⟨hterm, hne⟩]
    have hcl : searchClause [f] t = f ++ ":*" ++ t ++ "*" := rfl
    rw [hq, hf, hcl]
    apply jsTrimStr_append_noop _ _ hbase hbasene '*'
    · rw [strData_append]
      exact List.getLast?_concat _
    · decide

/-- Witness for C3 on the concrete presets of the test configuration:
the two-field expansion is parenthesized, the one-field expansion is
not. -/
theorem buildQuery_search_clause_witness :
    buildQuery presetSearchNotesEx [] (some "hello") none =
      "\"deck:TestDeck\"" ++ " " ++
        ("(" ++ String.intercalate " OR "
          (["Front", "Back"].map (fun f => f ++ ":*" ++ "hello" ++ "*")) ++ ")") ∧
    buildQuery presetSingleFieldEx [] (some "go") none =
      "\"deck:TestDeck\"" ++ " " ++ ("Front" ++ ":*" ++ "go" ++ "*") := by
  have h := buildQuery_search_clause presetSearchNotesEx "hello" rfl (by decide) (by decide)
    (by decide)
  have h2 := buildQuery_search_clause presetSingleFieldEx "go" rfl (by decide) (by decide)
    (by decide)
  exact ⟨h.1 "Front" "Back" [] rfl, h2.2 "Front" rfl⟩

/-! Pagination helper lemmas. -/

theorem length_addedSorted (sort : Option SortOrder) (ids : List Int) :
    (addedSorted sort ids).length = ids.length := by
  cases sort with
  | none => rfl
  | some s => cases s <;> simp [addedSorted, (List.perm_insertionSort _ _).length_eq]

theorem length_resortInfos (sort : Option SortOrder) (paged : List Int)
    (infos : List NoteInfo) : (resortInfos sort paged infos).length = infos.length := by
  cases sort with
  | none => rfl
  | some s => cases s <;> simp [resortInfos, (List.perm_insertionSort _ _).length_eq]

theorem searchNotes_paged_spec (cfg : FieldsCfg) (ids : List Int)
    (fn : List Int → List NoteInfo) (limit page : Option Int) (sort : Option SortOrder)
    (inc : Option IncludeFields) (maxRes : Int)
    (hlen : ∀ l, (fn l).length = l.length) :
    ∀ paged, paged =
      (if 0 < effLimit limit maxRes then
        jsSlice (addedSorted sort ids) (startOffset limit page maxRes)
          (startOffset limit page maxRes + effLimit limit maxRes)
      else addedSorted sort ids) →
    (searchNotes cfg ids fn limit inc sort page maxRes).notes.length = paged.length ∧
    (paged ≠ [] →
      (searchNotes cfg ids fn limit inc sort page maxRes).notesInfoCalls = [paged]) ∧
    (paged = [] →
      (searchNotes cfg ids fn limit inc sort page maxRes).notesInfoCalls = []) ∧
    ((searchNotes cfg ids fn limit inc sort page maxRes).hasMore =
      if paged = [] then false
      else decide (startOffset limit page maxRes + (paged.length : Int) < (ids.length : Int))) := by
  intro paged hpaged
  simp only [searchNotes, ← hpaged]
  by_cases hp : paged.isEmpty
  · have hpe : paged = [] := List.isEmpty_iff.mp hp
    simp [hp, hpe]
  · have hpe : paged ≠ [] := by simpa [List.isEmpty_iff] using hp
    simp [hp, hpe, length_resortInfos, hlen]

/-- C1 (amended).  Pagination in both search pipelines computes
effective page `max(1, page)` and start offset
`(effectivePage - 1) * limit`, returns the whole candidate collection
when the limit is non-positive and otherwise the drop-then-take slice at
the start offset of length at most the limit, reports `total` as the
full candidate count before slicing, and reports
`hasMore = start + returnedCount < totalCount` — except that the
note-search pipeline reports `hasMore = false` whenever the returned
page is empty, which deviates from the formula only for an empty
candidate list with a negative limit and page at least 2. -/
theorem pagination_contract (cfg : FieldsCfg) (ids : List Int)
    (fn : List Int → List NoteInfo) (limit page : Option Int) (sort : Option SortOrder)
    (inc cinc : Option IncludeFields) (maxRes : Int) (cardInfos : List CardInfo)
    (hlen : ∀ l, (fn l).length = l.length) :
    (searchNotes cfg ids fn limit inc sort page maxRes).total = (ids.length : Int) ∧
    (effLimit limit maxRes ≤ 0 →
      (searchNotes cfg ids fn limit inc sort page maxRes).notes.length = ids.length ∧
      (ids ≠ [] →
        (searchNotes cfg ids fn limit inc sort page maxRes).notesInfoCalls =
          [addedSorted sort ids])) ∧
    (0 < effLimit limit maxRes →
      (searchNotes cfg ids fn limit inc sort page maxRes).notes.length =
        (((addedSorted sort ids).drop (startOffset limit page maxRes).toNat).take
          (effLimit limit maxRes).toNat).length ∧
      (((addedSorted sort ids).drop (startOffset limit page maxRes).toNat).take
          (effLimit limit maxRes).toNat ≠ [] →
        (searchNotes cfg ids fn limit inc sort page maxRes).notesInfoCalls =
          [((addedSorted sort ids).drop (startOffset limit page maxRes).toNat).take
            (effLimit limit maxRes).toNat])) ∧
    ((searchNotes cfg ids fn limit inc sort page maxRes).notes ≠ [] →
      (searchNotes cfg ids fn limit inc sort page maxRes).hasMore =
        decide (startOffset limit page maxRes +
          ((searchNotes cfg ids fn limit inc sort page maxRes).notes.length : Int) <
          (ids.length : Int))) ∧
    ((searchNotes cfg ids fn limit inc sort page maxRes).notes = [] →
      (searchNotes cfg ids fn limit inc sort page maxRes).hasMore = false) ∧
    (searchCardsWithScheduling cfg cardInfos limit cinc page maxRes).total =
      ((scwsDedup cfg cinc cardInfos).length : Int) ∧
    (effLimit limit maxRes ≤ 0 →
      (searchCardsWithScheduling cfg cardInfos limit cinc page maxRes).notes =
        scwsDedup cfg cinc cardInfos) ∧
    (0 < effLimit limit maxRes →
      (searchCardsWithScheduling cfg cardInfos limit cinc page maxRes).notes =
        ((scwsDedup cfg cinc cardInfos).drop (startOffset limit page maxRes).toNat).take
          (effLimit limit maxRes).toNat) ∧
    (searchCardsWithScheduling cfg cardInfos limit cinc page maxRes).hasMore =
      decide (startOffset limit page maxRes +
        ((searchCardsWithScheduling cfg cardInfos limit cinc page maxRes).notes.length : Int) <
        ((scwsDedup cfg cinc cardInfos).length : Int)) := by
  have hstnn : 0 < effLimit limit maxRes → 0 ≤ startOffset limit page maxRes := by
    intro h
    unfold startOffset effPage
    have h1 : (1 : Int) ≤ max 1 (page.getD 1) := le_max_left 1 (page.getD 1)
    exact mul_nonneg (by omega) h.le
  have hmaster := searchNotes_paged_spec cfg ids fn limit page sort inc maxRes hlen _ rfl
  refine ⟨?_, ?_, ?_, ?_, ?_, ?_, ?_, ?_, ?_⟩
  · simp only [searchNotes]
    split <;> split <;> rfl
  · intro h0
    rw [if_neg (not_lt.mpr h0)] at hmaster
    constructor
    · rw [hmaster.1, length_addedSorted]
    · intro hids
      apply hmaster.2.1
      intro hS
      apply hids
      have hl := length_addedSorted sort ids
      rw [hS] at hl
      exact List.length_eq_zero.mp hl.symm
  · intro h0
    rw [if_pos h0, jsSlice_nonneg _ _ _ (hstnn h0) h0] at hmaster
    exact ⟨hmaster.1, hmaster.2.1⟩
  · intro hne
    have hpne : (if 0 < effLimit limit maxRes then
        jsSlice (addedSorted sort ids) (startOffset limit page maxRes)
          (startOffset limit page maxRes + effLimit limit maxRes)
      else addedSorted sort ids) ≠ [] := by
      intro h
      apply hne
      have := hmaster.1
      rw [h] at this
      exact List.length_eq_zero.mp this
    rw [hmaster.2.2.2, if_neg hpne, ← hmaster.1]
  · intro hn0
    have hpe : (if 0 < effLimit limit maxRes then
        jsSlice (addedSorted sort ids) (startOffset limit page maxRes)
          (startOffset limit page maxRes + effLimit limit maxRes)
      else addedSorted sort ids) = [] := by
      apply List.length_eq_zero.mp
      rw [← hmaster.1, hn0]
      rfl
    rw [hmaster.2.2.2, if_pos hpe]
  · rfl
  · intro h0
    simp only [searchCardsWithScheduling]
    rw [if_neg (not_lt.mpr h0)]
  · intro h0
    simp only [searchCardsWithScheduling]
    rw [if_pos h0, jsSlice_nonneg _ _ _ (hstnn h0) h0]
  · rfl

/-- Counterexample to C1 as stated: on an empty candidate list with
limit `-1` and page `2`, `searchNotes` reports `hasMore = false`
although `start + returnedCount < totalCount` holds (the start offset is
`-1`), so `hasMore` is not the stated formula. -/
theorem searchNotes_hasMore_counterexample :
    (searchNotes fcfgEx [] notesInfoFnEx (some (-1)) none none (some 2) 50).hasMore = false ∧
    startOffset (some (-1)) (some 2) 50 +
      ((searchNotes fcfgEx [] notesInfoFnEx (some (-1)) none none (some 2) 50).notes.length : Int) <
      (([] : List Int).length : Int) := by
  constructor <;> decide

/-- Witness for C1 at a concrete three-id search with limit 2, page 2,
added-descending sort, and a three-card scheduling fetch with limit 2,
page 1. -/
theorem pagination_contract_witness :
    (searchNotes fcfgEx [30, 10, 20] notesInfoFnEx (some 2) none (some SortOrder.added_desc)
      (some 1) 50).total = 3 ∧
    (searchNotes fcfgEx [30, 10, 20] notesInfoFnEx (some 2) none (some SortOrder.added_desc)
      (some 1) 50).notesInfoCalls = [[30, 20]] ∧
    (searchCardsWithScheduling fcfgEx [cardAEx, cardBEx, cardCEx] (some 2) none (some 1)
      50).notes = ((scwsDedup fcfgEx none [cardAEx, cardBEx, cardCEx]).drop 0).take 2 := by
  have h := pagination_contract fcfgEx [30, 10, 20] notesInfoFnEx (some 2) (some 1)
    (some SortOrder.added_desc) none none 50 [cardAEx, cardBEx, cardCEx]
    (by intro l; simp [notesInfoFnEx])
  refine ⟨?_, ?_, ?_⟩
  · rw [h.1]
    decide
  · rw [(h.2.2.1 (by decide)).2 (by decide)]
    decide
  · rw [h.2.2.2.2.2.2.2.1 (by decide)]
    decide

end AnkiMcp
